import Mathlib

/-!
Verification of the response-decoding pipeline of uos-squid-exporter
(`internal/metrics/client.go`): the three per-endpoint line decoders
(`decodeCounterStrings`, `decodeServiceTimeStrings`, `decodeInfoStrings`),
the per-endpoint aggregation loops (`GetCounters`, `GetServiceTimes`,
`GetInfos`) and the line producer (`readLines`).

Modelling choices:
* Go strings are modelled as `List Char`.  All delimiters the code
  searches for (`=`, `:`, `%`, space) are single-byte ASCII, so Go's
  byte-indexed slicing at the first occurrence of a delimiter coincides
  with character-indexed splitting.
* `strconv.ParseFloat` is modelled by `parseFloat?`, an exact decimal
  parser: a successfully parsed number is kept as a mantissa/exponent
  pair (`GoFloat`) rather than an IEEE double, so values are exact and
  decidable.  The decimal / exponent syntax of Go numeric literals is
  modelled; hexadecimal floats, "inf"/"nan" spellings and digit
  underscores are outside the fragment exercised here.
* Go slice indexing `s[i]` is modelled by `List.get?` with an explicit
  `panicked` outcome when the index is out of range, so runtime panics
  of the source are visible results, not stuck terms.
* `unicode.IsSpace` (used by `strings.TrimSpace`) is modelled on the
  ASCII white-space characters, the only ones the cache-manager
  protocol emits.
-/

namespace Squid

/-- Characters of a Go string literal. -/
def str (s : String) : List Char := s.data

/-- Model of `unicode.IsSpace` restricted to ASCII white space
(space, tab, newline, vertical tab, form feed, carriage return). -/
def isGoSpace (c : Char) : Bool :=
  c = ' ' || c = '\t' || c = '\n' || c = '\x0b' || c = '\x0c' || c = '\r'

/-- Model of `strings.TrimSpace`: drop white space from both ends. -/
def trimSpace (s : List Char) : List Char :=
  ((s.dropWhile isGoSpace).reverse.dropWhile isGoSpace).reverse

/-- Split a string at the first occurrence of character `c`:
`some (before, after)` when found, `none` otherwise.  This models the
Go pattern `if i := strings.Index(line, c); i >= 0 { line[:i] / line[i+1:] }`. -/
def splitFirst (c : Char) : List Char → Option (List Char × List Char)
  | [] => none
  | x :: xs =>
    if x = c then some ([], xs)
    else (splitFirst c xs).map (fun p => (x :: p.1, p.2))

/-- Model of `strings.Split(s, sep)` for a one-character separator:
always returns at least one (possibly empty) part. -/
def splitOnChar (c : Char) : List Char → List (List Char)
  | [] => [[]]
  | x :: xs =>
    if x = c then [] :: splitOnChar c xs
    else
      match splitOnChar c xs with
      | [] => [[x]]
      | h :: t => (x :: h) :: t

/-- Model of `strings.Replace(s, old, new, -1)` for a one-character
`old`: every occurrence of `old` is replaced by the string `new`. -/
def replaceChar (old : Char) (new : List Char) (s : List Char) : List Char :=
  (s.map (fun c => if c = old then new else [c])).flatten

/-- Model of `strings.HasSuffix`. -/
def hasSuffix (suf s : List Char) : Bool :=
  decide (suf <:+ s)

/-- ASCII decimal digit test. -/
def isDig (c : Char) : Bool :=
  '0' ≤ c && c ≤ '9'

/-- Numeric value of a digit string (most significant digit first). -/
def digitsVal (ds : List Char) : Nat :=
  ds.foldl (fun n c => 10 * n + (c.toNat - '0'.toNat)) 0

/-- Longest digit prefix and the rest. -/
def spanDigits : List Char → List Char × List Char
  | [] => ([], [])
  | c :: cs =>
    if isDig c then
      match spanDigits cs with
      | (ds, rest) => (c :: ds, rest)
    else ([], c :: cs)

/-- A `float64` value produced by `strconv.ParseFloat`, kept exactly as
the decimal mantissa together with a power-of-ten exponent. -/
structure GoFloat where
  mant : Int
  exp10 : Int
deriving DecidableEq, Repr

/-- Rational meaning of a parsed value (for reference; the claims only
compare values produced by the one deterministic parser). -/
def GoFloat.toRat (f : GoFloat) : ℚ :=
  (f.mant : ℚ) * (10 : ℚ) ^ f.exp10

/-- Exponent part of a float literal: optional sign then nonempty digits. -/
def parseExp? : List Char → Option Int
  | '+' :: r => if r ≠ [] ∧ r.all isDig then some (digitsVal r : Int) else none
  | '-' :: r => if r ≠ [] ∧ r.all isDig then some (-(digitsVal r : Int)) else none
  | r => if r ≠ [] ∧ r.all isDig then some (digitsVal r : Int) else none

/-- Build the value of `<ip>.<fp> * 10^e`. -/
def decValue (ip fp : List Char) (e : Int) : GoFloat :=
  ⟨(digitsVal (ip ++ fp) : Int), e - (fp.length : Int)⟩

/-- Unsigned part of the `strconv.ParseFloat` grammar:
`digits [. digits] [e|E exp]` with at least one digit present, the
whole string consumed. -/
def parseDec? (s : List Char) : Option GoFloat :=
  match spanDigits s with
  | (ip, r1) =>
    match r1 with
    | [] => if ip = [] then none else some (decValue ip [] 0)
    | '.' :: r2 =>
      (match spanDigits r2 with
       | (fp, r3) =>
         if ip = [] ∧ fp = [] then none
         else
           match r3 with
           | [] => some (decValue ip fp 0)
           | 'e' :: r4 => (parseExp? r4).map (decValue ip fp)
           | 'E' :: r4 => (parseExp? r4).map (decValue ip fp)
           | _ => none)
    | 'e' :: r4 => if ip = [] then none else (parseExp? r4).map (decValue ip [])
    | 'E' :: r4 => if ip = [] then none else (parseExp? r4).map (decValue ip [])
    | _ => none

/-- Model of `strconv.ParseFloat(s, 64)` on the decimal fragment:
optional sign, then `parseDec?`. -/
def parseFloat? (s : List Char) : Option GoFloat :=
  match s with
  | '+' :: r => parseDec? r
  | '-' :: r => (parseDec? r).map (fun f => ⟨-f.mant, f.exp10⟩)
  | r => parseDec? r

/-- `VarLabel` of `client.go`. -/
structure VarLabel where
  key : List Char
  value : List Char
deriving DecidableEq, Repr

/-- `Counter` of `client.go`; `value` defaults to `0` exactly like the
Go zero value of `float64`. -/
structure Counter where
  key : List Char
  value : GoFloat
  varLabels : List VarLabel
deriving DecidableEq, Repr

/-- The zero `Counter{}` returned by the decoders for discarded lines. -/
def emptyCounter : Counter := ⟨[], ⟨0, 0⟩, []⟩

/-- Result of one decoder call: Go's `(Counter, error)` pair, plus an
explicit `panicked` outcome for an out-of-range slice index. -/
inductive DecodeResult where
  | ok (c : Counter)
  | err (msg : List Char)
  | panicked
deriving DecidableEq, Repr

/-- `decodeCounterStrings` of `client.go` (counters grammar):
split at the first `=`, trim the key, trim the value and truncate it at
the first space, then parse it as a float. -/
def decodeCounterStrings (line : List Char) : DecodeResult :=
  match splitFirst '=' line with
  | some (pre, post) =>
    if trimSpace pre = [] then
      .err (str "counter - could not parse line: " ++ line)
    else
      -- `if len(line) > equal` in the source is always true here, and
      -- `strings.Split` always returns at least one part.
      match parseFloat? ((splitOnChar ' ' (trimSpace post)).headD []) with
      | some q => .ok ⟨trimSpace pre, q, []⟩
      | none => .err (str "counter - could not parse line: " ++ line)
  | none => .err (str "counter - could not parse line: " ++ line)

/-- Key normalization of the service-times decoder:
spaces become underscores, parentheses are removed. -/
def normSvcKey (k : List Char) : List Char :=
  replaceChar ')' [] (replaceChar '(' [] (replaceChar ' ' ['_'] k))

/-- `decodeServiceTimeStrings` of `client.go` (service-times grammar):
header lines ending in a bare colon decode to the empty record; data
lines split at the first `:`, the key is trimmed and normalized, and a
`%` inside the value introduces a `_<discriminator>` key suffix with
the first token after the `%` as the value. -/
def decodeServiceTimeStrings (line : List Char) : DecodeResult :=
  if hasSuffix (str ":\n") line then .ok emptyCounter
  else
    match splitFirst ':' line with
    | some (pre, post) =>
      if trimSpace pre = [] then
        .err (str "service times - could not parse line: " ++ line)
      else
        -- `if len(line) > equal` in the source is always true here.
        match splitFirst '%' (trimSpace post) with
        | some (d, dres) =>
          if trimSpace d ≠ [] then
            -- `if len(value) > equalTwo` in the source is always true.
            match parseFloat? ((splitOnChar ' ' (trimSpace dres)).headD []) with
            | some q =>
              .ok ⟨normSvcKey (trimSpace pre) ++ '_' :: trimSpace d, q, []⟩
            | none => .err (str "service times - could not parse line: " ++ line)
          else
            match parseFloat? (trimSpace post) with
            | some q => .ok ⟨normSvcKey (trimSpace pre), q, []⟩
            | none => .err (str "service times - could not parse line: " ++ line)
        | none =>
          match parseFloat? (trimSpace post) with
          | some q => .ok ⟨normSvcKey (trimSpace pre), q, []⟩
          | none => .err (str "service times - could not parse line: " ++ line)
    | none => .err (str "service times - could not parse line: " ++ line)

/-- Key normalization of the info decoder: spaces become underscores;
parentheses, commas and slashes are removed. -/
def normInfoKey (k : List Char) : List Char :=
  replaceChar '/' []
    (replaceChar ',' [] (replaceChar ')' [] (replaceChar '(' [] (replaceChar ' ' ['_'] k))))

/-- Strip `%` and then `,` from a label value, as the info decoder does. -/
def stripPctComma (v : List Char) : List Char :=
  replaceChar ',' [] (replaceChar '%' [] v)

/-- Scalar tail of the info decoder: strip `%`/`,` from the value and
parse it as a float. -/
def infoScalar (line key value : List Char) : DecodeResult :=
  match parseFloat? (stripPctComma value) with
  | some q => .ok ⟨key, q, []⟩
  | none => .err (str "info - could not parse line: " ++ line)

/-- `decodeInfoStrings` of `client.go` (info grammar), with its ordered
special cases: bare-colon header lines; the identity fields
`Squid_Object_Cache` (key suffixed `_Version`, value reduced to
`slices[1]` — a runtime panic when the value has fewer than two
space-separated parts), `Build_Info` and `Service_Name`, each returned
as a one-label record; the discarded `Start_Time`/`Current_Time`
lines; the dual-window `5min:`/`60min:` shape returned as a two-label
record (`slices[3]` is read unguarded — a runtime panic when only
three parts exist); the generic scalar; and, for lines without a
colon, the trailing `<value> <key>` form. -/
def decodeInfoStrings (line : List Char) : DecodeResult :=
  if hasSuffix (str ":\n") line then .ok emptyCounter
  else
    match splitFirst ':' line with
    | some (pre, post) =>
      if trimSpace pre = [] then
        .err (str "info - could not parse line: " ++ line)
      else
        if normInfoKey (trimSpace pre) = str "Squid_Object_Cache"
            ∨ normInfoKey (trimSpace pre) = str "Build_Info"
            ∨ normInfoKey (trimSpace pre) = str "Service_Name" then
          if normInfoKey (trimSpace pre) = str "Squid_Object_Cache" then
            -- `len(slices) > 0` is always true; `slices[1]` is unguarded.
            match (splitOnChar ' ' (trimSpace post)).get? 1 with
            | some w =>
              .ok ⟨normInfoKey (trimSpace pre) ++ str "_Version", ⟨0, 0⟩,
                   [⟨normInfoKey (trimSpace pre) ++ str "_Version", w⟩]⟩
            | none => .panicked
          else
            .ok ⟨normInfoKey (trimSpace pre), ⟨0, 0⟩,
                 [⟨normInfoKey (trimSpace pre), trimSpace post⟩]⟩
        else if normInfoKey (trimSpace pre) = str "Start_Time"
            ∨ normInfoKey (trimSpace pre) = str "Current_Time" then
          .ok emptyCounter
        else
          -- `len(slices) > 0` is always true.
          if (splitOnChar ' ' (trimSpace post)).headD [] = str "5min:"
              ∧ 2 < (splitOnChar ' ' (trimSpace post)).length
              ∧ (splitOnChar ' ' (trimSpace post)).getD 2 [] = str "60min:" then
            match (splitOnChar ' ' (trimSpace post)).get? 1 with
            | some x =>
              match (splitOnChar ' ' (trimSpace post)).get? 3 with
              | some y =>
                .ok ⟨normInfoKey (trimSpace pre), ⟨0, 0⟩,
                     [⟨replaceChar ':' [] ((splitOnChar ' ' (trimSpace post)).headD []),
                       stripPctComma x⟩,
                      ⟨replaceChar ':' [] ((splitOnChar ' ' (trimSpace post)).getD 2 []),
                       stripPctComma y⟩]⟩
              | none => .panicked
            | none => .panicked
          else
            infoScalar line (normInfoKey (trimSpace pre))
              ((splitOnChar ' ' (trimSpace post)).headD [])
    | none =>
      match splitFirst ' ' (trimSpace line) with
      | some (preV, postK) =>
        match parseFloat? (trimSpace preV) with
        | some q =>
          .ok ⟨replaceChar '-' ['_'] (replaceChar ' ' ['_'] (trimSpace postK)), q, []⟩
        | none => .err (str "info - could not parse line: " ++ line)
      | none => .err (str "info - could not parse line: " ++ line)

/-- Loop body of `GetCounters`: successfully decoded counters are
appended, failed lines are only logged. -/
def getCountersLoop : List (List Char) → List Counter → List Counter
  | [], acc => acc
  | line :: rest, acc =>
    match decodeCounterStrings line with
    | .ok c => getCountersLoop rest (acc ++ [c])
    | _ => getCountersLoop rest acc

/-- `GetCounters` of `client.go`, as a function of the received lines. -/
def getCounters (lines : List (List Char)) : List Counter :=
  getCountersLoop lines []

/-- Loop body of `GetServiceTimes`: a decoded record is appended only
when its key is non-empty. -/
def getServiceTimesLoop : List (List Char) → List Counter → List Counter
  | [], acc => acc
  | line :: rest, acc =>
    match decodeServiceTimeStrings line with
    | .ok c => if c.key ≠ [] then getServiceTimesLoop rest (acc ++ [c]) else getServiceTimesLoop rest acc
    | _ => getServiceTimesLoop rest acc

/-- `GetServiceTimes` of `client.go`, as a function of the received lines. -/
def getServiceTimes (lines : List (List Char)) : List Counter :=
  getServiceTimesLoop lines []

/-- Conditional append of `GetInfos`' 5min/60min branch: a scalar
record is emitted only when the label value parses as a float. -/
def optScalar (k v : List Char) : List Counter :=
  match parseFloat? v with
  | some q => [⟨k, q, []⟩]
  | none => []

/-- Loop of `GetInfos`: the accumulated result list and the label list
of the running `squid_info` composite record.  Records with labels are
split into two scalars (5min/60min shape, reading `VarLabels[1]`
unguarded — `none` models the runtime panic when it is missing) or
folded onto the composite; label-free records with a non-empty key are
appended directly. -/
def getInfosLoop :
    List (List Char) → List Counter → List VarLabel → Option (List Counter × List VarLabel)
  | [], infos, acc => some (infos, acc)
  | line :: rest, infos, acc =>
    match decodeInfoStrings line with
    | .panicked => none
    | .err _ => getInfosLoop rest infos acc
    | .ok info =>
      match info.varLabels with
      | [] =>
        if info.key ≠ [] then getInfosLoop rest (infos ++ [info]) acc
        else getInfosLoop rest infos acc
      | l0 :: ls =>
        if l0.key = str "5min" then
          match ls with
          | [] => none
          | l1 :: _ =>
            getInfosLoop rest
              (infos ++ optScalar (info.key ++ str "_" ++ l0.key) l0.value
                     ++ optScalar (info.key ++ str "_" ++ l1.key) l1.value) acc
        else getInfosLoop rest infos (acc ++ [l0])

/-- `GetInfos` of `client.go`, as a function of the received lines: run
the loop starting from the composite record `{squid_info, 1}` with no
labels, and append the composite at the end exactly when it
accumulated labels.  `none` models a decoding panic crashing the call. -/
def getInfos (lines : List (List Char)) : Option (List Counter) :=
  (getInfosLoop lines [] []).map
    (fun p => if p.2 = [] then p.1 else p.1 ++ [⟨str "squid_info", ⟨1, 0⟩, p.2⟩])

/-- Stated from the claim (C5): the labels of all decoded records that
carry exactly one label whose key is not `5min`, in input order — the
labels the aggregator is claimed to fold onto the composite record. -/
def foldedLabels : List (List Char) → List VarLabel
  | [] => []
  | line :: rest =>
    match decodeInfoStrings line with
    | .ok info =>
      match info.varLabels with
      | [l0] =>
        if l0.key = str "5min" then foldedLabels rest else l0 :: foldedLabels rest
      | _ => foldedLabels rest
    | _ => foldedLabels rest

/-- `readLines` of `client.go`, one `bufio.Reader.ReadString('\n')`
step at a time: `acc` is the data consumed for the line being read; on
end of stream (or read error) the partial line is dropped with the
channel closed, otherwise each line is delivered including its
terminating newline. -/
def readLinesGo (acc : List Char) : List Char → List (List Char)
  | [] => []
  | c :: rest =>
    if c = '\n' then (acc ++ [c]) :: readLinesGo [] rest
    else readLinesGo (acc ++ [c]) rest

/-- The sequence of lines `readLines` sends on its channel for a given
body stream. -/
def readLines (stream : List Char) : List (List Char) :=
  readLinesGo [] stream

/-! ### Helper lemmas about the string primitives -/

theorem splitFirst_of_not_mem {c : Char} {k : List Char} (v : List Char) (hk : c ∉ k) :
    splitFirst c (k ++ c :: v) = some (k, v) := by
  induction k with
  | nil => simp [splitFirst]
  | cons x xs ih =>
    have hx : x ≠ c := fun h => hk (h ▸ List.mem_cons_self x xs)
    have hxs : c ∉ xs := fun h => hk (List.mem_cons_of_mem x h)
    simp [splitFirst, hx, ih hxs]

theorem splitFirst_eq_none_iff {c : Char} {s : List Char} :
    splitFirst c s = none ↔ c ∉ s := by
  induction s with
  | nil => simp [splitFirst]
  | cons x xs ih =>
    by_cases hx : x = c
    · subst hx; simp [splitFirst]
    · simp only [splitFirst, if_neg hx, List.mem_cons]
      cases hsf : splitFirst c xs with
      | none =>
        have hnm : c ∉ xs := ih.mp hsf
        simp only [Option.map_none']
        constructor
        · intro _ hor
          rcases hor with h1 | h2
          · exact hx h1.symm
          · exact hnm h2
        · intro _; trivial
      | some p =>
        have hmem : c ∈ xs := by
          by_contra hc
          rw [ih.mpr hc] at hsf
          cases hsf
        simp only [Option.map_some']
        constructor
        · intro h; cases h
        · intro hn; exact absurd (Or.inr hmem) hn

theorem splitFirst_eq_some {c : Char} {s a b : List Char}
    (h : splitFirst c s = some (a, b)) : s = a ++ c :: b ∧ c ∉ a := by
  induction s generalizing a b with
  | nil => simp [splitFirst] at h
  | cons x xs ih =>
    by_cases hx : x = c
    · subst hx
      simp [splitFirst] at h
      obtain ⟨ha, hb⟩ := h
      subst ha; subst hb; simp
    · simp only [splitFirst, if_neg hx] at h
      cases hsf : splitFirst c xs with
      | none => rw [hsf] at h; cases h
      | some p =>
        obtain ⟨p1, p2⟩ := p
        rw [hsf] at h
        simp only [Option.map_some', Option.some.injEq, Prod.mk.injEq] at h
        obtain ⟨ha, hb⟩ := h
        subst hb
        obtain ⟨hs, hmem⟩ := ih hsf
        subst ha
        constructor
        · rw [hs]; simp
        · intro hm
          rcases List.mem_cons.mp hm with h1 | h2
          · exact hx h1.symm
          · exact hmem h2

theorem splitOnChar_ne_nil (c : Char) (s : List Char) : splitOnChar c s ≠ [] := by
  cases s with
  | nil => simp [splitOnChar]
  | cons x xs =>
    simp only [splitOnChar]
    split
    · simp
    · split <;> simp

theorem head?_dropWhile_not {p : Char → Bool} {l : List Char} {x : Char} {xs : List Char}
    (h : l.dropWhile p = x :: xs) : p x = false := by
  induction l with
  | nil => simp at h
  | cons y ys ih =>
    by_cases hy : p y
    · rw [List.dropWhile_cons_of_pos hy] at h; exact ih h
    · rw [List.dropWhile_cons_of_neg hy] at h
      cases h; simpa using hy

theorem trimSpace_getLast? {s : List Char} {c : Char}
    (h : (trimSpace s).getLast? = some c) : isGoSpace c = false := by
  unfold trimSpace at h
  rw [List.getLast?_reverse] at h
  cases hd : ((s.dropWhile isGoSpace).reverse.dropWhile isGoSpace) with
  | nil => rw [hd] at h; simp at h
  | cons x xs =>
    rw [hd] at h
    simp only [List.head?_cons, Option.some.injEq] at h
    subst h
    exact head?_dropWhile_not hd

theorem trimSpace_eq_nil {s : List Char} (h : trimSpace s = []) :
    ∀ c ∈ s, isGoSpace c = true := by
  unfold trimSpace at h
  rw [List.reverse_eq_nil_iff, List.dropWhile_eq_nil_iff] at h
  intro c hc
  have hall : ∀ x ∈ s.dropWhile isGoSpace, isGoSpace x = true := by
    intro x hx
    exact h x (List.mem_reverse.mpr hx)
  have hsplit := List.takeWhile_append_dropWhile isGoSpace s
  rw [← hsplit] at hc
  rcases List.mem_append.mp hc with h1 | h2
  · exact List.mem_takeWhile_imp h1
  · exact hall c h2

theorem trimSpace_tail_ne_nil {line preV postK : List Char}
    (h : splitFirst ' ' (trimSpace line) = some (preV, postK)) :
    trimSpace postK ≠ [] := by
  intro hnil
  obtain ⟨hs, _⟩ := splitFirst_eq_some h
  have hallK : ∀ c ∈ postK, isGoSpace c = true := trimSpace_eq_nil hnil
  cases hK : postK with
  | nil =>
    rw [hK] at hs
    have hlast : (trimSpace line).getLast? = some ' ' := by
      rw [hs]
      exact List.getLast?_concat preV
    have := trimSpace_getLast? hlast
    simp [isGoSpace] at this
  | cons z zs =>
    have hne : (z :: zs : List Char) ≠ [] := by simp
    have hw : ((' ' :: z :: zs : List Char)).getLast? = some ((z :: zs).getLast hne) := by
      rw [List.getLast?_eq_getLast _ (by simp)]
      exact congrArg some (List.getLast_cons hne)
    have hlast : (trimSpace line).getLast? = some ((z :: zs).getLast hne) := by
      rw [hs, hK, List.getLast?_append, hw]
      rfl
    have hns := trimSpace_getLast? hlast
    have hmem : (z :: zs).getLast hne ∈ postK := by
      rw [hK]; exact List.getLast_mem hne
    have := hallK _ hmem
    rw [this] at hns
    cases hns

theorem replaceChar_singleton_ne_nil {old d : Char} {s : List Char} (h : s ≠ []) :
    replaceChar old [d] s ≠ [] := by
  cases s with
  | nil => exact absurd rfl h
  | cons x xs =>
    simp only [replaceChar, List.map_cons, List.flatten_cons]
    split <;> simp

/-! ### Claim theorems -/

/-- C1 (code bug evidence): the info decoder crashes with an
index-out-of-range panic, contradicting the spec's requirement that the
decoder tolerate arbitrary malformed lines without failing the scrape:
a `Squid Object Cache` banner whose value has fewer than two
space-separated tokens reads `slices[1]` out of range, and a
`5min:`/`60min:` line with no fourth token reads `slices[3]` out of
range; in both cases `GetInfos` dies instead of returning a result. -/
theorem decodeInfoStrings_panics_on_malformed :
    decodeInfoStrings (str "Squid Object Cache: beta\n") = .panicked
    ∧ decodeInfoStrings (str "X: 5min: 1% 60min: \n") = .panicked
    ∧ getInfos [str "Squid Object Cache: beta\n"] = none
    ∧ getInfos [str "X: 5min: 1% 60min: \n"] = none := by decide

/-- C2: a counters line `<key>=<value>` (first `=` as delimiter) whose
key is non-empty after trimming and whose value's first space-delimited
token parses as a float decodes to exactly that key and value with no
error; and the decode errs exactly when there is no `=`, the key trims
to empty, or the numeric parse of that first token fails. -/
theorem decodeCounterStrings_correct (line : List Char) :
    (∀ k v q, line = k ++ '=' :: v → '=' ∉ k → trimSpace k ≠ [] →
        parseFloat? ((splitOnChar ' ' (trimSpace v)).headD []) = some q →
        decodeCounterStrings line = .ok ⟨trimSpace k, q, []⟩)
    ∧ ((∃ msg, decodeCounterStrings line = .err msg) ↔
        ('=' ∉ line ∨ ∃ k v, line = k ++ '=' :: v ∧ '=' ∉ k ∧
          (trimSpace k = [] ∨
            parseFloat? ((splitOnChar ' ' (trimSpace v)).headD []) = none))) := by
  constructor
  · intro k v q hline hk hkne hparse
    subst hline
    simp only [decodeCounterStrings, splitFirst_of_not_mem v hk, if_neg hkne, hparse]
  · constructor
    · rintro ⟨msg, hmsg⟩
      cases hsf : splitFirst '=' line with
      | none => exact Or.inl (splitFirst_eq_none_iff.mp hsf)
      | some p =>
        obtain ⟨a, b⟩ := p
        obtain ⟨hline, hna⟩ := splitFirst_eq_some hsf
        right
        refine ⟨a, b, hline, hna, ?_⟩
        by_cases hke : trimSpace a = []
        · exact Or.inl hke
        · right
          cases hp : parseFloat? ((splitOnChar ' ' (trimSpace b)).headD []) with
          | none => rfl
          | some q =>
            exfalso
            simp only [decodeCounterStrings, hsf, if_neg hke, hp] at hmsg
            cases hmsg
    · intro hor
      rcases hor with hno | ⟨k, v, hline, hk, hcond⟩
      · have hsf := splitFirst_eq_none_iff.mpr hno
        exact ⟨str "counter - could not parse line: " ++ line,
          by simp only [decodeCounterStrings, hsf]⟩
      · subst hline
        have hsf := splitFirst_of_not_mem v hk
        rcases hcond with hke | hpn
        · exact ⟨str "counter - could not parse line: " ++ (k ++ '=' :: v),
            by simp only [decodeCounterStrings, hsf, if_pos hke]⟩
        · by_cases hke : trimSpace k = []
          · exact ⟨str "counter - could not parse line: " ++ (k ++ '=' :: v),
              by simp only [decodeCounterStrings, hsf, if_pos hke]⟩
          · exact ⟨str "counter - could not parse line: " ++ (k ++ '=' :: v),
              by simp only [decodeCounterStrings, hsf, if_neg hke, hpn]⟩

/-- C2 witness: `"key = 123.45\n"` decodes to key `key` and value
`123.45` (mantissa 12345, exponent -2). -/
theorem decodeCounterStrings_correct_witness :
    decodeCounterStrings (str "key = 123.45\n") = .ok ⟨str "key", ⟨12345, -2⟩, []⟩ :=
  (decodeCounterStrings_correct (str "key = 123.45\n")).1 (str "key ") (str " 123.45\n")
    ⟨12345, -2⟩ (by decide) (by decide) (by decide) (by decide)

/-- C4: a line without `=` makes the counters decoder err; a line
without `:` makes the service-times decoder err; and a line without `:`
whose trimmed text has no trailing `<value> <key>` part with a
float-parsable value makes the info decoder err — never a zero-valued
success. -/
theorem decoders_err_without_delimiters (line : List Char) :
    ('=' ∉ line → ∃ msg, decodeCounterStrings line = .err msg)
    ∧ (':' ∉ line → ∃ msg, decodeServiceTimeStrings line = .err msg)
    ∧ (':' ∉ line →
        (∀ preV postK, splitFirst ' ' (trimSpace line) = some (preV, postK) →
          parseFloat? (trimSpace preV) = none) →
        ∃ msg, decodeInfoStrings line = .err msg) := by
  refine ⟨?_, ?_, ?_⟩
  · intro h
    have hsf := splitFirst_eq_none_iff.mpr h
    exact ⟨str "counter - could not parse line: " ++ line,
      by simp only [decodeCounterStrings, hsf]⟩
  · intro h
    have hns : ¬ (hasSuffix (str ":\n") line = true) := by
      intro hhs
      have hsuf : str ":\n" <:+ line := of_decide_eq_true hhs
      exact h (hsuf.subset (by decide))
    have hsf := splitFirst_eq_none_iff.mpr h
    exact ⟨str "service times - could not parse line: " ++ line,
      by simp only [decodeServiceTimeStrings, if_neg hns, hsf]⟩
  · intro h hpf
    have hns : ¬ (hasSuffix (str ":\n") line = true) := by
      intro hhs
      have hsuf : str ":\n" <:+ line := of_decide_eq_true hhs
      exact h (hsuf.subset (by decide))
    have hsf := splitFirst_eq_none_iff.mpr h
    refine ⟨str "info - could not parse line: " ++ line, ?_⟩
    simp only [decodeInfoStrings, if_neg hns, hsf]
    cases hsp : splitFirst ' ' (trimSpace line) with
    | none => rfl
    | some p =>
      obtain ⟨preV, postK⟩ := p
      simp only [hpf preV postK hsp]

/-- C4 witness: `"garbage\n"` has no `=`, no `:` and no trailing
`<value> <key>` part, and all three decoders err on it. -/
theorem decoders_err_without_delimiters_witness :
    (∃ msg, decodeCounterStrings (str "garbage\n") = .err msg)
    ∧ (∃ msg, decodeServiceTimeStrings (str "garbage\n") = .err msg)
    ∧ (∃ msg, decodeInfoStrings (str "garbage\n") = .err msg) :=
  ⟨(decoders_err_without_delimiters (str "garbage\n")).1 (by decide),
   (decoders_err_without_delimiters (str "garbage\n")).2.1 (by decide),
   (decoders_err_without_delimiters (str "garbage\n")).2.2 (by decide)
     (fun preV postK h => by
       rw [show splitFirst ' ' (trimSpace (str "garbage\n")) = none from by decide] at h
       cases h)⟩

/-- C7: lines ending in a bare colon decode to the empty record with no
error in both the service-times and info grammars, `Start_Time` /
`Current_Time` lines decode to the empty record in the info grammar,
and an empty decoded record leaves the service-times and info
aggregation states unchanged, so it never reaches the output. -/
theorem headers_and_timestamps_discarded (line : List Char) :
    (hasSuffix (str ":\n") line = true →
        decodeServiceTimeStrings line = .ok emptyCounter
        ∧ decodeInfoStrings line = .ok emptyCounter)
    ∧ (∀ pre post, hasSuffix (str ":\n") line = false →
        splitFirst ':' line = some (pre, post) →
        (normInfoKey (trimSpace pre) = str "Start_Time"
          ∨ normInfoKey (trimSpace pre) = str "Current_Time") →
        decodeInfoStrings line = .ok emptyCounter)
    ∧ (decodeServiceTimeStrings line = .ok emptyCounter →
        ∀ rest acc, getServiceTimesLoop (line :: rest) acc = getServiceTimesLoop rest acc)
    ∧ (decodeInfoStrings line = .ok emptyCounter →
        ∀ rest infos acc, getInfosLoop (line :: rest) infos acc = getInfosLoop rest infos acc) := by
  refine ⟨?_, ?_, ?_, ?_⟩
  · intro h
    constructor
    · simp only [decodeServiceTimeStrings, if_pos h]
    · simp only [decodeInfoStrings, if_pos h]
  · intro pre post hns hsf hkey
    have hnst : ¬ (hasSuffix (str ":\n") line = true) := by rw [hns]; simp
    have hpre : trimSpace pre ≠ [] := by
      intro h0
      rcases hkey with hk | hk <;> (rw [h0] at hk; exact absurd hk (by decide))
    simp only [decodeInfoStrings, if_neg hnst, hsf, if_neg hpre]
    rcases hkey with hk | hk <;> rw [hk]
    · rw [if_neg (by decide), if_pos (by decide)]
    · rw [if_neg (by decide), if_pos (by decide)]
  · intro h rest acc
    simp only [getServiceTimesLoop, h, emptyCounter]
    simp
  · intro h rest infos acc
    simp only [getInfosLoop, h, emptyCounter]
    simp

/-- C7 witness: the header line `"Connection information for
squid:\n"` is discarded by both grammars and the timestamp line
`"Start Time:\tTue, 06 May 2025\n"` by the info grammar; neither
changes the aggregation state. -/
theorem headers_and_timestamps_discarded_witness :
    decodeServiceTimeStrings (str "Connection information for squid:\n") = .ok emptyCounter
    ∧ decodeInfoStrings (str "Connection information for squid:\n") = .ok emptyCounter
    ∧ decodeInfoStrings (str "Start Time:\tTue, 06 May 2025\n") = .ok emptyCounter
    ∧ getServiceTimesLoop [str "Connection information for squid:\n"] [] =
        getServiceTimesLoop [] []
    ∧ getInfosLoop [str "Start Time:\tTue, 06 May 2025\n"] [] [] = getInfosLoop [] [] [] := by
  refine ⟨?_, ?_, ?_, ?_, ?_⟩
  · exact ((headers_and_timestamps_discarded _).1 (by decide)).1
  · exact ((headers_and_timestamps_discarded _).1 (by decide)).2
  · exact (headers_and_timestamps_discarded _).2.1 (str "Start Time")
      (str "\tTue, 06 May 2025\n") (by decide) (by decide) (Or.inl (by decide))
  · exact (headers_and_timestamps_discarded _).2.2.1
      (((headers_and_timestamps_discarded _).1 (by decide)).1) [] []
  · exact (headers_and_timestamps_discarded _).2.2.2
      ((headers_and_timestamps_discarded _).2.1 (str "Start Time")
        (str "\tTue, 06 May 2025\n") (by decide) (by decide) (Or.inl (by decide))) [] [] []

/-- C8 counterexample: the service-times line `"a,b: 5\n"` decodes
successfully, yet its returned key `a,b` still contains the comma —
the claim that every comma is removed from the key is false. -/
theorem serviceTimes_key_keeps_commas :
    decodeServiceTimeStrings (str "a,b: 5\n") = .ok ⟨str "a,b", ⟨5, 0⟩, []⟩
    ∧ str "a,b" ≠ replaceChar ',' [] (str "a,b")
    ∧ ',' ∈ str "a,b" := by decide

/-- C8 amended: for every successfully decoded service-times data line
the returned key is the trimmed key with spaces replaced by
underscores and parentheses removed (commas are preserved), extended
with a `_<discriminator>` suffix when the value contains a `%` with
non-empty text before it. -/
theorem decodeServiceTimeStrings_key_normalization
    (line pre post : List Char) (c : Counter)
    (hns : hasSuffix (str ":\n") line = false)
    (hsf : splitFirst ':' line = some (pre, post))
    (hok : decodeServiceTimeStrings line = .ok c) :
    c.key = match splitFirst '%' (trimSpace post) with
      | none => normSvcKey (trimSpace pre)
      | some (d, _) =>
        if trimSpace d = [] then normSvcKey (trimSpace pre)
        else normSvcKey (trimSpace pre) ++ '_' :: trimSpace d := by
  have hnst : ¬ (hasSuffix (str ":\n") line = true) := by rw [hns]; simp
  by_cases hpre : trimSpace pre = []
  · simp only [decodeServiceTimeStrings, if_neg hnst, hsf, if_pos hpre] at hok
    cases hok
  simp only [decodeServiceTimeStrings, if_neg hnst, hsf, if_neg hpre] at hok
  cases hsp : splitFirst '%' (trimSpace post) with
  | none =>
    simp only [hsp] at hok
    cases hpf : parseFloat? (trimSpace post) with
    | some q =>
      simp only [hpf, DecodeResult.ok.injEq] at hok
      subst hok
      simp [hsp]
    | none => simp only [hpf] at hok; cases hok
  | some p =>
    obtain ⟨d, dres⟩ := p
    simp only [hsp] at hok
    by_cases hd : trimSpace d = []
    · rw [if_neg (not_not_intro hd)] at hok
      cases hpf : parseFloat? (trimSpace post) with
      | some q =>
        simp only [hpf, DecodeResult.ok.injEq] at hok
        subst hok
        simp [hsp, if_pos hd]
      | none => simp only [hpf] at hok; cases hok
    · rw [if_pos hd] at hok
      cases hpf : parseFloat? ((splitOnChar ' ' (trimSpace dres)).headD []) with
      | some q =>
        simp only [hpf, DecodeResult.ok.injEq] at hok
        subst hok
        simp [hsp, if_neg hd]
      | none => simp only [hpf] at hok; cases hok

/-- C8 witness: `"HTTP Requests (All):   5%   5 10\n"` decodes with key
`HTTP_Requests_All_5` — the normalized key plus the `%` discriminator
suffix. -/
theorem decodeServiceTimeStrings_key_normalization_witness :
    (⟨str "HTTP_Requests_All_5", ⟨5, 0⟩, []⟩ : Counter).key =
      match splitFirst '%' (trimSpace (str "   5%   5 10\n")) with
      | none => normSvcKey (trimSpace (str "HTTP Requests (All)"))
      | some (d, _) =>
        if trimSpace d = [] then normSvcKey (trimSpace (str "HTTP Requests (All)"))
        else normSvcKey (trimSpace (str "HTTP Requests (All)")) ++ '_' :: trimSpace d :=
  decodeServiceTimeStrings_key_normalization
    (str "HTTP Requests (All):   5%   5 10\n") (str "HTTP Requests (All)")
    (str "   5%   5 10\n") ⟨str "HTTP_Requests_All_5", ⟨5, 0⟩, []⟩
    (by decide) (by decide) (by decide)

/-- C3 counterexample: a line whose value has first token `5min:` and
third token `60min:` but no fourth token has the claimed dual-window
shape, yet `GetInfos` panics on it (result `none`) instead of emitting
the two scalar records. -/
theorem dualWindow_missing_fourth_token_crashes :
    (splitOnChar ' ' (trimSpace (str " 5min: 1% 60min: \n"))).headD [] = str "5min:"
    ∧ (splitOnChar ' ' (trimSpace (str " 5min: 1% 60min: \n"))).getD 2 [] = str "60min:"
    ∧ getInfos [str "X: 5min: 1% 60min: \n"] = none := by decide

/-- C3 amended: for every info line of the dual-window shape with all
four value tokens present (`5min: X 60min: Y`), the decoder returns the
two-label record and the `GetInfos` loop emits two scalar records named
`<key>_5min` / `<key>_60min`, each holding its token with `%` and `,`
stripped and parsed as a float, skipping either half whose value fails
to parse. -/
theorem getInfos_dualWindow_emits_two_records
    (line pre post x y : List Char)
    (hns : hasSuffix (str ":\n") line = false)
    (hsf : splitFirst ':' line = some (pre, post))
    (hpre : trimSpace pre ≠ [])
    (hid1 : ¬(normInfoKey (trimSpace pre) = str "Squid_Object_Cache"
        ∨ normInfoKey (trimSpace pre) = str "Build_Info"
        ∨ normInfoKey (trimSpace pre) = str "Service_Name"))
    (hid2 : ¬(normInfoKey (trimSpace pre) = str "Start_Time"
        ∨ normInfoKey (trimSpace pre) = str "Current_Time"))
    (h0 : (splitOnChar ' ' (trimSpace post)).headD [] = str "5min:")
    (hlen : 2 < (splitOnChar ' ' (trimSpace post)).length)
    (h2 : (splitOnChar ' ' (trimSpace post)).getD 2 [] = str "60min:")
    (h1 : (splitOnChar ' ' (trimSpace post)).get? 1 = some x)
    (h3 : (splitOnChar ' ' (trimSpace post)).get? 3 = some y) :
    decodeInfoStrings line =
      .ok ⟨normInfoKey (trimSpace pre), ⟨0, 0⟩,
           [⟨str "5min", stripPctComma x⟩, ⟨str "60min", stripPctComma y⟩]⟩
    ∧ ∀ rest infos acc,
        getInfosLoop (line :: rest) infos acc =
          getInfosLoop rest
            (infos
              ++ optScalar (normInfoKey (trimSpace pre) ++ str "_" ++ str "5min")
                   (stripPctComma x)
              ++ optScalar (normInfoKey (trimSpace pre) ++ str "_" ++ str "60min")
                   (stripPctComma y)) acc := by
  have hnst : ¬ (hasSuffix (str ":\n") line = true) := by rw [hns]; simp
  have hdec : decodeInfoStrings line =
      .ok ⟨normInfoKey (trimSpace pre), ⟨0, 0⟩,
           [⟨str "5min", stripPctComma x⟩, ⟨str "60min", stripPctComma y⟩]⟩ := by
    simp only [decodeInfoStrings, if_neg hnst, hsf, if_neg hpre, if_neg hid1, if_neg hid2]
    rw [if_pos ⟨h0, hlen, h2⟩]
    simp only [h1, h3, h0, h2]
    rw [show replaceChar ':' [] (str "5min:") = str "5min" from by decide,
        show replaceChar ':' [] (str "60min:") = str "60min" from by decide]
  refine ⟨hdec, ?_⟩
  intro rest infos acc
  simp only [getInfosLoop, hdec]
  simp

/-- C3 witness: `"Hits as % of all requests: 5min: 85.2%, 60min:
87.5%\n"` decodes to the two-label record and the loop emits
`Hits_as_%_of_all_requests_5min = 85.2` and
`Hits_as_%_of_all_requests_60min = 87.5`. -/
theorem getInfos_dualWindow_emits_two_records_witness :
    decodeInfoStrings (str "Hits as % of all requests: 5min: 85.2%, 60min: 87.5%\n") =
      .ok ⟨str "Hits_as_%_of_all_requests", ⟨0, 0⟩,
           [⟨str "5min", str "85.2"⟩, ⟨str "60min", str "87.5"⟩]⟩
    ∧ getInfosLoop [str "Hits as % of all requests: 5min: 85.2%, 60min: 87.5%\n"] [] [] =
        getInfosLoop []
          ([] ++ optScalar (str "Hits_as_%_of_all_requests" ++ str "_" ++ str "5min")
                   (str "85.2")
              ++ optScalar (str "Hits_as_%_of_all_requests" ++ str "_" ++ str "60min")
                   (str "87.5")) [] := by
  have h := getInfos_dualWindow_emits_two_records
    (str "Hits as % of all requests: 5min: 85.2%, 60min: 87.5%\n")
    (str "Hits as % of all requests") (str " 5min: 85.2%, 60min: 87.5%\n")
    (str "85.2%,") (str "87.5%")
    (by decide) (by decide) (by decide) (by decide) (by decide)
    (by decide) (by decide) (by decide) (by decide) (by decide)
  exact ⟨h.1, h.2 [] [] []⟩

/-- C6: an info line whose normalized key is `Squid_Object_Cache` and
whose value has a second space-delimited token decodes to a one-label
record whose key carries the `_Version` suffix and whose label value is
that second token, and the `GetInfos` loop folds that label onto the
running composite record. -/
theorem decodeInfoStrings_version_banner
    (line pre post w : List Char)
    (hns : hasSuffix (str ":\n") line = false)
    (hsf : splitFirst ':' line = some (pre, post))
    (hkey : normInfoKey (trimSpace pre) = str "Squid_Object_Cache")
    (htok : (splitOnChar ' ' (trimSpace post)).get? 1 = some w) :
    decodeInfoStrings line =
      .ok ⟨str "Squid_Object_Cache_Version", ⟨0, 0⟩,
           [⟨str "Squid_Object_Cache_Version", w⟩]⟩
    ∧ ∀ rest infos acc,
        getInfosLoop (line :: rest) infos acc =
          getInfosLoop rest infos (acc ++ [⟨str "Squid_Object_Cache_Version", w⟩]) := by
  have hnst : ¬ (hasSuffix (str ":\n") line = true) := by rw [hns]; simp
  have hpre : trimSpace pre ≠ [] := by
    intro h0
    rw [h0] at hkey
    exact absurd hkey (by decide)
  have hdec : decodeInfoStrings line =
      .ok ⟨str "Squid_Object_Cache_Version", ⟨0, 0⟩,
           [⟨str "Squid_Object_Cache_Version", w⟩]⟩ := by
    simp only [decodeInfoStrings, if_neg hnst, hsf, if_neg hpre, hkey]
    simp only [true_or, if_true, htok]
    rfl
  refine ⟨hdec, ?_⟩
  intro rest infos acc
  simp only [getInfosLoop, hdec]
  rw [if_neg (by decide)]

/-- C6 witness: `"Squid Object Cache: Version 4.10\n"` yields the label
`{Squid_Object_Cache_Version: "4.10"}` folded onto the composite. -/
theorem decodeInfoStrings_version_banner_witness :
    decodeInfoStrings (str "Squid Object Cache: Version 4.10\n") =
      .ok ⟨str "Squid_Object_Cache_Version", ⟨0, 0⟩,
           [⟨str "Squid_Object_Cache_Version", str "4.10"⟩]⟩
    ∧ getInfosLoop [str "Squid Object Cache: Version 4.10\n"] [] [] =
        getInfosLoop [] [] ([] ++ [⟨str "Squid_Object_Cache_Version", str "4.10"⟩]) := by
  have h := decodeInfoStrings_version_banner
    (str "Squid Object Cache: Version 4.10\n") (str "Squid Object Cache")
    (str " Version 4.10\n") (str "4.10")
    (by decide) (by decide) (by decide) (by decide)
  exact ⟨h.1, h.2 [] [] []⟩

theorem decodeCounterStrings_ok_key {line : List Char} {c : Counter}
    (h : decodeCounterStrings line = .ok c) : c.key ≠ [] := by
  cases hsf : splitFirst '=' line with
  | none => simp only [decodeCounterStrings, hsf] at h; cases h
  | some p =>
    obtain ⟨a, b⟩ := p
    by_cases hk : trimSpace a = []
    · simp only [decodeCounterStrings, hsf, if_pos hk] at h; cases h
    · simp only [decodeCounterStrings, hsf, if_neg hk] at h
      cases hp : parseFloat? ((splitOnChar ' ' (trimSpace b)).headD []) with
      | none => simp only [hp] at h; cases h
      | some q =>
        simp only [hp, DecodeResult.ok.injEq] at h
        subst h
        exact hk

theorem decodeInfo_multi_label_first_5min {line : List Char} {c : Counter}
    (h : decodeInfoStrings line = .ok c) {l0 l1 : VarLabel} {ls : List VarLabel}
    (hv : c.varLabels = l0 :: l1 :: ls) : l0.key = str "5min" := by
  by_cases hhs : hasSuffix (str ":\n") line = true
  · simp only [decodeInfoStrings, if_pos hhs, DecodeResult.ok.injEq] at h
    subst h
    simp [emptyCounter] at hv
  cases hsf : splitFirst ':' line with
  | none =>
    simp only [decodeInfoStrings, if_neg hhs, hsf] at h
    cases hsp : splitFirst ' ' (trimSpace line) with
    | none => simp only [hsp] at h; cases h
    | some p =>
      obtain ⟨preV, postK⟩ := p
      simp only [hsp] at h
      cases hpf : parseFloat? (trimSpace preV) with
      | none => simp only [hpf] at h; cases h
      | some q =>
        simp only [hpf, DecodeResult.ok.injEq] at h
        subst h
        simp at hv
  | some p =>
    obtain ⟨pre, post⟩ := p
    by_cases hpre : trimSpace pre = []
    · simp only [decodeInfoStrings, if_neg hhs, hsf, if_pos hpre] at h; cases h
    simp only [decodeInfoStrings, if_neg hhs, hsf, if_neg hpre] at h
    by_cases hident : normInfoKey (trimSpace pre) = str "Squid_Object_Cache"
        ∨ normInfoKey (trimSpace pre) = str "Build_Info"
        ∨ normInfoKey (trimSpace pre) = str "Service_Name"
    · rw [if_pos hident] at h
      by_cases hsoc : normInfoKey (trimSpace pre) = str "Squid_Object_Cache"
      · rw [if_pos hsoc] at h
        cases hw : (splitOnChar ' ' (trimSpace post)).get? 1 with
        | none => simp only [hw] at h; cases h
        | some w =>
          simp only [hw, DecodeResult.ok.injEq] at h
          subst h
          simp at hv
      · rw [if_neg hsoc] at h
        simp only [DecodeResult.ok.injEq] at h
        subst h
        simp at hv
    rw [if_neg hident] at h
    by_cases htime : normInfoKey (trimSpace pre) = str "Start_Time"
        ∨ normInfoKey (trimSpace pre) = str "Current_Time"
    · rw [if_pos htime] at h
      simp only [DecodeResult.ok.injEq] at h
      subst h
      simp [emptyCounter] at hv
    rw [if_neg htime] at h
    by_cases hdw : (splitOnChar ' ' (trimSpace post)).headD [] = str "5min:"
        ∧ 2 < (splitOnChar ' ' (trimSpace post)).length
        ∧ (splitOnChar ' ' (trimSpace post)).getD 2 [] = str "60min:"
    · rw [if_pos hdw] at h
      cases hx : (splitOnChar ' ' (trimSpace post)).get? 1 with
      | none => simp only [hx] at h; cases h
      | some x =>
        cases hy : (splitOnChar ' ' (trimSpace post)).get? 3 with
        | none => simp only [hx, hy] at h; cases h
        | some y =>
          simp only [hx, hy, DecodeResult.ok.injEq] at h
          subst h
          simp only [List.cons.injEq] at hv
          rw [← hv.1]
          rw [hdw.1]
          show replaceChar ':' [] (str "5min:") = str "5min"
          decide
    · rw [if_neg hdw] at h
      unfold infoScalar at h
      cases hpf : parseFloat? (stripPctComma ((splitOnChar ' ' (trimSpace post)).headD [])) with
      | none => simp only [hpf] at h; cases h
      | some q =>
        simp only [hpf, DecodeResult.ok.injEq] at h
        subst h
        simp at hv

theorem mem_optScalar {c : Counter} {k v : List Char} (h : c ∈ optScalar k v) :
    c.varLabels = [] ∧ c.key = k := by
  unfold optScalar at h
  cases hp : parseFloat? v with
  | none => rw [hp] at h; cases h
  | some q =>
    rw [hp] at h
    rcases List.mem_singleton.mp h with rfl
    exact ⟨rfl, rfl⟩

theorem getInfosLoop_invariant :
    ∀ (lines : List (List Char)) (infos : List Counter) (acc : List VarLabel)
      (main : List Counter) (accF : List VarLabel),
      (∀ c ∈ infos, c.varLabels = [] ∧ c.key ≠ []) →
      getInfosLoop lines infos acc = some (main, accF) →
      ∀ c ∈ main, c.varLabels = [] ∧ c.key ≠ [] := by
  intro lines
  induction lines with
  | nil =>
    intro infos acc main accF hinv h
    simp only [getInfosLoop, Option.some.injEq, Prod.mk.injEq] at h
    rw [← h.1]
    exact hinv
  | cons line rest ih =>
    intro infos acc main accF hinv h
    cases hdec : decodeInfoStrings line with
    | panicked => simp only [getInfosLoop, hdec] at h; cases h
    | err m => simp only [getInfosLoop, hdec] at h; exact ih _ _ _ _ hinv h
    | ok info =>
      cases hv : info.varLabels with
      | nil =>
        simp only [getInfosLoop, hdec, hv] at h
        by_cases hk : info.key ≠ []
        · rw [if_pos hk] at h
          refine ih _ _ _ _ ?_ h
          intro c hc
          rcases List.mem_append.mp hc with hc1 | hc2
          · exact hinv c hc1
          · rcases List.mem_singleton.mp hc2 with rfl
            exact ⟨hv, hk⟩
        · rw [if_neg hk] at h
          exact ih _ _ _ _ hinv h
      | cons l0 ls =>
        simp only [getInfosLoop, hdec, hv] at h
        by_cases h5 : l0.key = str "5min"
        · rw [if_pos h5] at h
          cases ls with
          | nil => simp at h
          | cons l1 ls2 =>
            refine ih _ _ _ _ ?_ h
            intro c hc
            rcases List.mem_append.mp hc with hc1 | hc2
            · rcases List.mem_append.mp hc1 with hc3 | hc4
              · exact hinv c hc3
              · obtain ⟨hlab, hkey⟩ := mem_optScalar hc4
                refine ⟨hlab, ?_⟩
                rw [hkey, show (str "_" : List Char) = ['_'] from rfl]
                simp
            · obtain ⟨hlab, hkey⟩ := mem_optScalar hc2
              refine ⟨hlab, ?_⟩
              rw [hkey, show (str "_" : List Char) = ['_'] from rfl]
              simp
        · rw [if_neg h5] at h
          exact ih _ _ _ _ hinv h

theorem getInfosLoop_acc_eq :
    ∀ (lines : List (List Char)) (infos : List Counter) (acc : List VarLabel)
      (main : List Counter) (accF : List VarLabel),
      getInfosLoop lines infos acc = some (main, accF) →
      accF = acc ++ foldedLabels lines := by
  intro lines
  induction lines with
  | nil =>
    intro infos acc main accF h
    simp only [getInfosLoop, Option.some.injEq, Prod.mk.injEq] at h
    rw [← h.2]
    simp [foldedLabels]
  | cons line rest ih =>
    intro infos acc main accF h
    cases hdec : decodeInfoStrings line with
    | panicked => simp only [getInfosLoop, hdec] at h; cases h
    | err m =>
      simp only [getInfosLoop, hdec] at h
      simp only [foldedLabels, hdec]
      exact ih _ _ _ _ h
    | ok info =>
      cases hv : info.varLabels with
      | nil =>
        simp only [getInfosLoop, hdec, hv] at h
        simp only [foldedLabels, hdec, hv]
        by_cases hk : info.key ≠ []
        · rw [if_pos hk] at h; exact ih _ _ _ _ h
        · rw [if_neg hk] at h; exact ih _ _ _ _ h
      | cons l0 ls =>
        simp only [getInfosLoop, hdec, hv] at h
        by_cases h5 : l0.key = str "5min"
        · rw [if_pos h5] at h
          cases ls with
          | nil => simp at h
          | cons l1 ls2 =>
            simp only [foldedLabels, hdec, hv]
            exact ih _ _ _ _ h
        · rw [if_neg h5] at h
          cases ls with
          | nil =>
            have hrec := ih _ _ _ _ h
            simp only [foldedLabels, hdec, hv, if_neg h5]
            rw [hrec]
            simp
          | cons l1 ls2 =>
            exact absurd (decodeInfo_multi_label_first_5min hdec hv) h5

/-- C5: a decoded record carrying exactly one label whose key is not
`5min` is folded onto the running composite record and not emitted
standalone; after all lines are consumed the composite record — key
`squid_info`, value 1, carrying exactly the folded labels in order —
is appended exactly once if and only if at least one label accumulated
(all other emitted records carry no labels, so the composite cannot
also occur among them). -/
theorem getInfos_composite_folding :
    (∀ (line : List Char) (rest : List (List Char)) (infos : List Counter)
        (acc : List VarLabel) (info : Counter) (l0 : VarLabel),
        decodeInfoStrings line = .ok info → info.varLabels = [l0] →
        l0.key ≠ str "5min" →
        getInfosLoop (line :: rest) infos acc = getInfosLoop rest infos (acc ++ [l0]))
    ∧ (∀ (lines : List (List Char)) (main : List Counter) (accF : List VarLabel),
        getInfosLoop lines [] [] = some (main, accF) →
        accF = foldedLabels lines
        ∧ (∀ c ∈ main, c.varLabels = [])
        ∧ getInfos lines = some (if accF = [] then main
            else main ++ [⟨str "squid_info", ⟨1, 0⟩, accF⟩])) := by
  constructor
  · intro line rest infos acc info l0 hdec hv h5
    simp only [getInfosLoop, hdec, hv, if_neg h5]
  · intro lines main accF h
    refine ⟨?_, ?_, ?_⟩
    · have := getInfosLoop_acc_eq lines [] [] main accF h
      simpa using this
    · intro c hc
      exact (getInfosLoop_invariant lines [] [] main accF (by simp) h c hc).1
    · simp only [getInfos, h, Option.map_some']

/-- C5 witness: `"Build Info: test\n"` decodes to a one-label record
that is folded onto the composite, and the run over that single line
returns exactly the composite record carrying that label. -/
theorem getInfos_composite_folding_witness :
    getInfosLoop [str "Build Info: test\n"] [] [] =
        getInfosLoop [] [] ([] ++ [⟨str "Build_Info", str "test"⟩])
    ∧ ([⟨str "Build_Info", str "test"⟩] : List VarLabel) =
        foldedLabels [str "Build Info: test\n"]
    ∧ getInfos [str "Build Info: test\n"] =
        some (if ([⟨str "Build_Info", str "test"⟩] : List VarLabel) = [] then []
          else [] ++ [⟨str "squid_info", ⟨1, 0⟩, [⟨str "Build_Info", str "test"⟩]⟩]) := by
  have h1 := getInfos_composite_folding.1 (str "Build Info: test\n") [] [] []
    ⟨str "Build_Info", ⟨0, 0⟩, [⟨str "Build_Info", str "test"⟩]⟩
    ⟨str "Build_Info", str "test"⟩ (by decide) (by decide) (by decide)
  have h2 := getInfos_composite_folding.2 [str "Build Info: test\n"] []
    [⟨str "Build_Info", str "test"⟩] (by decide)
  exact ⟨h1, h2.1, h2.2.2⟩

/-- C9: every record in the output of `GetCounters`, `GetServiceTimes`
or (when it returns at all) `GetInfos` has a non-empty key. -/
theorem outputs_have_nonempty_keys (lines : List (List Char)) :
    (∀ c ∈ getCounters lines, c.key ≠ [])
    ∧ (∀ c ∈ getServiceTimes lines, c.key ≠ [])
    ∧ (∀ res, getInfos lines = some res → ∀ c ∈ res, c.key ≠ []) := by
  refine ⟨?_, ?_, ?_⟩
  · have hloop : ∀ (ls : List (List Char)) (acc : List Counter),
        (∀ c ∈ acc, c.key ≠ []) → ∀ c ∈ getCountersLoop ls acc, c.key ≠ [] := by
      intro ls
      induction ls with
      | nil => intro acc hacc; exact hacc
      | cons line rest ih =>
        intro acc hacc
        cases hdec : decodeCounterStrings line with
        | ok c0 =>
          simp only [getCountersLoop, hdec]
          refine ih _ ?_
          intro c hc
          rcases List.mem_append.mp hc with hc1 | hc2
          · exact hacc c hc1
          · rcases List.mem_singleton.mp hc2 with rfl
            exact decodeCounterStrings_ok_key hdec
        | err m => simp only [getCountersLoop, hdec]; exact ih _ hacc
        | panicked => simp only [getCountersLoop, hdec]; exact ih _ hacc
    exact hloop lines [] (by simp)
  · have hloop : ∀ (ls : List (List Char)) (acc : List Counter),
        (∀ c ∈ acc, c.key ≠ []) → ∀ c ∈ getServiceTimesLoop ls acc, c.key ≠ [] := by
      intro ls
      induction ls with
      | nil => intro acc hacc; exact hacc
      | cons line rest ih =>
        intro acc hacc
        cases hdec : decodeServiceTimeStrings line with
        | ok c0 =>
          simp only [getServiceTimesLoop, hdec]
          by_cases hk : c0.key ≠ []
          · rw [if_pos hk]
            refine ih _ ?_
            intro c hc
            rcases List.mem_append.mp hc with hc1 | hc2
            · exact hacc c hc1
            · rcases List.mem_singleton.mp hc2 with rfl
              exact hk
          · rw [if_neg hk]
            exact ih _ hacc
        | err m => simp only [getServiceTimesLoop, hdec]; exact ih _ hacc
        | panicked => simp only [getServiceTimesLoop, hdec]; exact ih _ hacc
    exact hloop lines [] (by simp)
  · intro res hres c hc
    cases hloop : getInfosLoop lines [] [] with
    | none => rw [getInfos, hloop] at hres; cases hres
    | some p =>
      obtain ⟨main, accF⟩ := p
      rw [getInfos, hloop] at hres
      simp only [Option.map_some', Option.some.injEq] at hres
      subst hres
      have hmain := fun c hc =>
        (getInfosLoop_invariant lines [] [] main accF (by simp) hloop c hc).2
      by_cases hacc : accF = []
      · rw [if_pos hacc] at hc
        exact hmain c hc
      · rw [if_neg hacc] at hc
        rcases List.mem_append.mp hc with hc1 | hc2
        · exact hmain c hc1
        · rcases List.mem_singleton.mp hc2 with rfl
          simp [str]

/-- C9 witness: on a concrete mixed batch every output record of all
three getters has a non-empty key. -/
theorem outputs_have_nonempty_keys_witness :
    (str "client_http.requests" : List Char) ≠ []
    ∧ (str "Median_svc_time_sec" : List Char) ≠ []
    ∧ (str "squid_info" : List Char) ≠ [] :=
  ⟨(outputs_have_nonempty_keys [str "client_http.requests = 12345\n"]).1
      ⟨str "client_http.requests", ⟨12345, 0⟩, []⟩ (by decide),
   (outputs_have_nonempty_keys [str "Median svc time (sec): 2.5\n"]).2.1
      ⟨str "Median_svc_time_sec", ⟨25, -1⟩, []⟩ (by decide),
   (outputs_have_nonempty_keys [str "Build Info: test\n"]).2.2
      [⟨str "squid_info", ⟨1, 0⟩, [⟨str "Build_Info", str "test"⟩]⟩] (by decide)
      ⟨str "squid_info", ⟨1, 0⟩, [⟨str "Build_Info", str "test"⟩]⟩ (by decide)⟩

theorem readLinesGo_flatten (s : List Char) :
    ∀ acc : List Char, '\n' ∉ acc →
      ∃ rest, acc ++ s = (readLinesGo acc s).flatten ++ rest ∧ '\n' ∉ rest := by
  induction s with
  | nil =>
    intro acc hacc
    exact ⟨acc, by simp [readLinesGo], hacc⟩
  | cons c cs ih =>
    intro acc hacc
    by_cases hc : c = '\n'
    · subst hc
      obtain ⟨rest, hrest, hnr⟩ := ih [] (by simp)
      refine ⟨rest, ?_, hnr⟩
      simp only [readLinesGo, if_true, List.flatten_cons]
      simp only [List.nil_append] at hrest
      rw [List.append_assoc, ← hrest]
      simp
    · obtain ⟨rest, hrest, hnr⟩ := ih (acc ++ [c]) (by
        intro hmem
        rcases List.mem_append.mp hmem with h1 | h2
        · exact hacc h1
        · exact hc (List.mem_singleton.mp h2).symm)
      refine ⟨rest, ?_, hnr⟩
      simp only [readLinesGo, if_neg hc]
      rw [← hrest]
      simp

theorem readLinesGo_mem (s : List Char) :
    ∀ acc : List Char, '\n' ∉ acc →
      ∀ l ∈ readLinesGo acc s, ∃ m, l = m ++ ['\n'] ∧ '\n' ∉ m := by
  induction s with
  | nil => intro acc _ l hl; simp [readLinesGo] at hl
  | cons c cs ih =>
    intro acc hacc l hl
    by_cases hc : c = '\n'
    · subst hc
      simp only [readLinesGo, if_pos rfl] at hl
      rcases List.mem_cons.mp hl with h1 | h2
      · exact ⟨acc, h1, hacc⟩
      · exact ih [] (by simp) l h2
    · simp only [readLinesGo, if_neg hc] at hl
      exact ih (acc ++ [c]) (by
        intro hmem
        rcases List.mem_append.mp hmem with h1 | h2
        · exact hacc h1
        · exact hc (List.mem_singleton.mp h2).symm) l hl

/-- C10: the lines `readLines` delivers are exactly the
newline-terminated lines of the body stream — every delivered line is
some newline-free text followed by `'\n'`, and the stream is the
concatenation of the delivered lines followed by a newline-free
remainder (the silently discarded final partial line). -/
theorem readLines_delivers_terminated_lines (stream : List Char) :
    (∀ l ∈ readLines stream, ∃ m, l = m ++ ['\n'] ∧ '\n' ∉ m)
    ∧ ∃ rest, stream = (readLines stream).flatten ++ rest ∧ '\n' ∉ rest := by
  constructor
  · exact readLinesGo_mem stream [] (by simp)
  · have h := readLinesGo_flatten stream [] (by simp)
    simpa [readLines] using h

/-- C10 witness: the stream `"ab\ncd"` delivers the line `"ab\n"`,
which ends in the newline; the unterminated `"cd"` is discarded. -/
theorem readLines_delivers_terminated_lines_witness :
    ∃ m, str "ab\n" = m ++ ['\n'] ∧ '\n' ∉ m :=
  (readLines_delivers_terminated_lines (str "ab\ncd")).1 (str "ab\n") (by decide)

end Squid
